import Mathlib

/-!
Verification development for the strip layout helper of `egui_extras`
(`egui_extras/src/strip.rs`).

The file shallowly embeds the strip module: the size-list accumulator and
builder (`Sizing`, `StripBuilder`), the size resolver (`Sizing.into_lengths`),
and the cell dispenser (`Strip`) together with its teardown drain loop
(`Drop for Strip`).  Machine floats (`f32`) are embedded as rationals `ℚ`;
the layout collaborator (`Layout`) is embedded as the trace of placement
calls it receives, in order.  A fatal assertion (Rust `assert!`, which aborts
the program) is embedded as the `Except.error` branch carrying the state at
the moment of termination, so "no placement call was made before aborting"
is visible as an unchanged call trace.
-/

namespace EguiStrip

/-- Direction of a strip, mirroring `CellDirection` of the layout module. -/
inductive CellDirection
  | Horizontal
  | Vertical
  deriving DecidableEq

/-- Cell extent request sent to the layout collaborator, mirroring `CellSize`:
either an absolute extent or "fill the remainder" on that axis. -/
inductive CellSize
  | Absolute (v : ℚ)
  | Remainder
  deriving DecidableEq

/-- Modelled from the spec: the `Size` enum of the sizing module (not part of
the sources at hand; only its uses in `strip.rs` are).  A size specification
is "exact value, or flexible-with-optional-minimum, or weighted share of
leftover space"; `Remainder` is an unweighted flexible request (weight 1),
`RemainderMinimum` additionally clamps the resolved share from below, and
`Weighted` is a flexible request with an explicit weight. -/
inductive Size
  | Absolute (v : ℚ)
  | Remainder
  | RemainderMinimum (m : ℚ)
  | Weighted (w : ℚ)
  deriving DecidableEq

/-- Classification from the spec's resolver step 1: a specification is
flexible when it shares leftover space (everything except an exact value). -/
def Size.isFlexible : Size → Bool
  | .Absolute _ => false
  | .Remainder => true
  | .RemainderMinimum _ => true
  | .Weighted _ => true

/-- Fixed contribution of one specification to the resolver's first pass:
exact values contribute themselves, flexible specifications contribute 0. -/
def Size.fixedContribution : Size → ℚ
  | .Absolute v => v
  | .Remainder => 0
  | .RemainderMinimum _ => 0
  | .Weighted _ => 0

/-- Distribution weight of a flexible specification (default weight 1 for
unweighted remainder requests; exact values take no share). -/
def Size.weight : Size → ℚ
  | .Absolute _ => 0
  | .Remainder => 1
  | .RemainderMinimum _ => 1
  | .Weighted w => w

/-- Modelled from the spec: the `Sizing` accumulator of the sizing module —
an ordered sequence of size specifications, mutated only by appending. -/
structure Sizing where
  sizes : List Size
  deriving DecidableEq

/-- Fresh empty accumulator (`Sizing::new`). -/
def Sizing.new : Sizing := ⟨[]⟩

/-- Append one specification (`Sizing::add`). -/
def Sizing.add (s : Sizing) (x : Size) : Sizing := ⟨s.sizes ++ [x]⟩

/-- Sum of the fixed contributions of an accumulated specification list. -/
def Sizing.fixedSum (s : Sizing) : ℚ :=
  (s.sizes.map Size.fixedContribution).sum

/-- Total inter-cell gap allowance: `(N-1) * spacing` for `N` accumulated
specifications (natural subtraction, so 0 for an empty list). -/
def Sizing.gapAllowance (s : Sizing) (spacing : ℚ) : ℚ :=
  ((s.sizes.length - 1 : ℕ) : ℚ) * spacing

/-- Total distribution weight of the flexible specifications. -/
def Sizing.totalWeight (s : Sizing) : ℚ :=
  ((s.sizes.filter fun x => x.isFlexible).map Size.weight).sum

/-- Leftover space to distribute among flexible specifications, clamped to 0
when the fixed contributions plus gaps exceed the total. -/
def Sizing.leftover (s : Sizing) (length spacing : ℚ) : ℚ :=
  max 0 (length - s.fixedSum - s.gapAllowance spacing)

/-- Resolution of one specification given the per-weight share function. -/
def Size.resolve (x : Size) (share : ℚ → ℚ) : ℚ :=
  match x with
  | .Absolute v => v
  | .Remainder => share 1
  | .RemainderMinimum m => max m (share 1)
  | .Weighted w => share w

/-- Modelled from the spec: `Sizing::into_lengths` of the sizing module (the
size resolver).  Two passes: sum the fixed contributions, then distribute the
non-negative leftover `T - fixed - (N-1)*spacing` across flexible entries in
proportion to their weight, clamping each share to be non-negative and
applying declared minimums after distribution (single-pass, no
redistribution). -/
def Sizing.into_lengths (self : Sizing) (length spacing : ℚ) : List ℚ :=
  self.sizes.map fun x =>
    x.resolve fun w => max 0 (self.leftover length spacing * w / self.totalWeight)

/-- One placement call received by the layout collaborator: `Layout::empty`
reserves space without content, `Layout::add` places content with a
wrap-vs-clip mode.  Content callbacks are UI effects outside this model. -/
inductive LayoutCall
  | empty (width height : CellSize)
  | add (width height : CellSize) (clip : Bool)
  deriving DecidableEq

/-- Width argument of a placement call. -/
def LayoutCall.width : LayoutCall → CellSize
  | .empty w _ => w
  | .add w _ _ => w

/-- Height argument of a placement call. -/
def LayoutCall.height : LayoutCall → CellSize
  | .empty _ h => h
  | .add _ h _ => h

/-- Test whether a placement call is an empty-cell placement. -/
def LayoutCall.isEmptyCell : LayoutCall → Bool
  | .empty _ _ => true
  | .add _ _ _ => false

/-- Extent of a placement call on the strip's main axis. -/
def LayoutCall.mainExtent (dir : CellDirection) (c : LayoutCall) : CellSize :=
  match dir with
  | .Horizontal => c.width
  | .Vertical => c.height

/-- State of an active `Strip`: the chosen direction, the remaining
resolved-length queue (`sizes: Vec<f32>`), and the trace of placement calls
the layout collaborator has received so far. -/
structure StripState where
  direction : CellDirection
  sizes : List ℚ
  calls : List LayoutCall
  deriving DecidableEq

/-- The builder (`StripBuilder`): the accumulated sizing.  The borrowed `Ui`
is passed separately at the `horizontal`/`vertical` entry points. -/
structure StripBuilder where
  sizing : Sizing
  deriving DecidableEq

/-- Fresh builder over an empty accumulator (`StripBuilder::new`). -/
def StripBuilder.new : StripBuilder := ⟨Sizing.new⟩

/-- Append one size hint (`StripBuilder::size`). -/
def StripBuilder.size (b : StripBuilder) (x : Size) : StripBuilder :=
  ⟨b.sizing.add x⟩

/-- The queried state of the host `Ui`: available extents before wrap and the
configured inter-item spacing on each axis. -/
structure Ui where
  availableWidth : ℚ
  availableHeight : ℚ
  itemSpacingX : ℚ
  itemSpacingY : ℚ
  deriving DecidableEq

/-- Entry point `StripBuilder::horizontal`: resolves the widths over the
available width reduced by one horizontal item spacing, with that same
spacing as the per-gap value, and hands the caller a horizontal dispenser
with an empty call trace. -/
def StripBuilder.horizontal (b : StripBuilder) (ui : Ui) : StripState :=
  ⟨CellDirection.Horizontal,
   b.sizing.into_lengths (ui.availableWidth - ui.itemSpacingX) ui.itemSpacingX,
   []⟩

/-- Entry point `StripBuilder::vertical`: resolves the heights over the
available height reduced by one vertical item spacing, with that same
spacing as the per-gap value, and hands the caller a vertical dispenser
with an empty call trace. -/
def StripBuilder.vertical (b : StripBuilder) (ui : Ui) : StripState :=
  ⟨CellDirection.Vertical,
   b.sizing.into_lengths (ui.availableHeight - ui.itemSpacingY) ui.itemSpacingY,
   []⟩

/-- Mirrors `Strip::next_cell_size`: removes the first remaining resolved
length and pairs it as (width, height) according to the direction — the
main axis gets the absolute resolved value, the cross axis gets
`Remainder`.  `none` corresponds to `Vec::remove(0)` on an empty queue,
which the callers' assertions rule out. -/
def Strip.next_cell_size (s : StripState) :
    Option ((CellSize × CellSize) × StripState) :=
  match s.sizes with
  | [] => none
  | l :: rest =>
    match s.direction with
    | .Horizontal =>
      some ((CellSize.Absolute l, CellSize.Remainder), ⟨s.direction, rest, s.calls⟩)
    | .Vertical =>
      some ((CellSize.Remainder, CellSize.Absolute l), ⟨s.direction, rest, s.calls⟩)

/-- Mirrors `Strip::empty`: assert the queue is non-empty (the `error`
branch is the fatal assertion, terminating with the trace unchanged), then
consume the next resolved length and place an empty cell. -/
def Strip.empty (s : StripState) : Except StripState StripState :=
  match Strip.next_cell_size s with
  | none => .error s
  | some (wh, s1) =>
    .ok ⟨s1.direction, s1.sizes, s1.calls ++ [LayoutCall.empty wh.1 wh.2]⟩

/-- Mirrors `Strip::_cell`: assert the queue is non-empty, consume the next
resolved length and place a content cell with the given clip mode. -/
def Strip._cell (clip : Bool) (s : StripState) : Except StripState StripState :=
  match Strip.next_cell_size s with
  | none => .error s
  | some (wh, s1) =>
    .ok ⟨s1.direction, s1.sizes, s1.calls ++ [LayoutCall.add wh.1 wh.2 clip]⟩

/-- Mirrors `Strip::cell`: content is wrapped. -/
def Strip.cell (s : StripState) : Except StripState StripState :=
  Strip._cell false s

/-- Mirrors `Strip::cell_clip`: content is clipped. -/
def Strip.cell_clip (s : StripState) : Except StripState StripState :=
  Strip._cell true s

/-- Mirrors `Strip::_strip`: one cell whose content callback receives a
fresh builder (`StripBuilder::new`); the model returns that builder
alongside the successor state. -/
def Strip._strip (clip : Bool) (s : StripState) :
    Except StripState (StripState × StripBuilder) :=
  (Strip._cell clip s).map fun s1 => (s1, StripBuilder.new)

/-- Mirrors `Strip::strip`: nested strip cell, content wrapped. -/
def Strip.strip (s : StripState) : Except StripState (StripState × StripBuilder) :=
  Strip._strip false s

/-- Mirrors `Strip::strip_noclip`: nested strip cell, content clipped. -/
def Strip.strip_noclip (s : StripState) :
    Except StripState (StripState × StripBuilder) :=
  Strip._strip true s

/-- Mirrors `Drop for Strip` with explicit fuel: while the queue is
non-empty, call `Strip.empty`.  A `Strip.empty` failure would be the fatal
assertion firing during teardown. -/
def Strip.dropLoop : ℕ → StripState → Except StripState StripState
  | 0, s => .ok s
  | fuel + 1, s =>
    if s.sizes.isEmpty then .ok s
    else
      match Strip.empty s with
      | .error e => .error e
      | .ok s1 => Strip.dropLoop fuel s1

/-- The teardown of a `Strip` (`Drop::drop`): drain every remaining resolved
length by emitting an empty cell for it. -/
def Strip.dropStrip (s : StripState) : Except StripState StripState :=
  Strip.dropLoop s.sizes.length s

/-- One caller-visible cell-emitting operation on a dispenser. -/
inductive StripOp
  | empty
  | cell
  | cell_clip
  | strip
  | strip_noclip
  deriving DecidableEq

/-- Apply one cell-emitting operation to the dispenser state, discarding the
nested builder of the strip variants. -/
def StripOp.apply : StripOp → StripState → Except StripState StripState
  | .empty, s => Strip.empty s
  | .cell, s => Strip.cell s
  | .cell_clip, s => Strip.cell_clip s
  | .strip, s => (Strip.strip s).map Prod.fst
  | .strip_noclip, s => (Strip.strip_noclip s).map Prod.fst

/-- Run a sequence of caller operations, stopping at the first fatal
assertion. -/
def runOps : List StripOp → StripState → Except StripState StripState
  | [], s => .ok s
  | op :: ops, s =>
    match op.apply s with
    | .error e => .error e
    | .ok s1 => runOps ops s1

/-- Cell extents used when consuming one resolved length `l` in direction
`dir` (the pair produced by `Strip.next_cell_size`). -/
def cellSizes (dir : CellDirection) (l : ℚ) : CellSize × CellSize :=
  match dir with
  | .Horizontal => (CellSize.Absolute l, CellSize.Remainder)
  | .Vertical => (CellSize.Remainder, CellSize.Absolute l)

/-- Placement call emitted by one operation consuming resolved length `l`
in direction `dir`. -/
def opCall (op : StripOp) (dir : CellDirection) (l : ℚ) : LayoutCall :=
  match op with
  | .empty => LayoutCall.empty (cellSizes dir l).1 (cellSizes dir l).2
  | .cell => LayoutCall.add (cellSizes dir l).1 (cellSizes dir l).2 false
  | .cell_clip => LayoutCall.add (cellSizes dir l).1 (cellSizes dir l).2 true
  | .strip => LayoutCall.add (cellSizes dir l).1 (cellSizes dir l).2 false
  | .strip_noclip => LayoutCall.add (cellSizes dir l).1 (cellSizes dir l).2 true

/-- Empty-cell placement calls drained for a list of resolved lengths. -/
def drainCalls (dir : CellDirection) (ls : List ℚ) : List LayoutCall :=
  ls.map fun l => LayoutCall.empty (cellSizes dir l).1 (cellSizes dir l).2

/-! Helper lemmas on single steps, operation sequences and the drain loop. -/

lemma stepOk (op : StripOp) (s : StripState) (l : ℚ) (rest : List ℚ)
    (h : s.sizes = l :: rest) :
    op.apply s = .ok ⟨s.direction, rest, s.calls ++ [opCall op s.direction l]⟩ := by
  obtain ⟨dir, sizes, calls⟩ := s
  dsimp only at h
  subst h
  cases op <;> cases dir <;> rfl

lemma stepErr (op : StripOp) (s : StripState) (h : s.sizes = []) :
    op.apply s = .error s := by
  obtain ⟨dir, sizes, calls⟩ := s
  dsimp only at h
  subst h
  cases op <;> rfl

lemma opCall_mainExtent (op : StripOp) (dir : CellDirection) (l : ℚ) :
    (opCall op dir l).mainExtent dir = CellSize.Absolute l := by
  cases op <;> cases dir <;> rfl

lemma runOps_ok (ops : List StripOp) (s s' : StripState)
    (h : runOps ops s = .ok s') :
    ops.length ≤ s.sizes.length ∧
    s'.direction = s.direction ∧
    s'.sizes = s.sizes.drop ops.length ∧
    ∃ new, s'.calls = s.calls ++ new ∧ new.length = ops.length ∧
      new.map (LayoutCall.mainExtent s.direction) =
        (s.sizes.take ops.length).map CellSize.Absolute := by
  induction ops generalizing s with
  | nil =>
    obtain rfl : s = s' := by
      simpa [runOps] using h
    exact ⟨Nat.zero_le _, rfl, rfl, [], by simp⟩
  | cons op ops ih =>
    rcases hs : s.sizes with _ | ⟨l, rest⟩
    · rw [runOps, stepErr op s hs] at h
      exact absurd h (by simp)
    · rw [runOps, stepOk op s l rest hs] at h
      obtain ⟨h1, h2, h3, new1, hc, hlen, hmap⟩ := ih _ h
      refine ⟨?_, h2, ?_, opCall op s.direction l :: new1, ?_, by simp [hlen], ?_⟩
      · simpa [hs] using Nat.succ_le_succ h1
      · simpa [hs] using h3
      · simpa using hc
      · simp only [hs, List.length_cons, List.take_succ_cons, List.map_cons,
          opCall_mainExtent]
        simpa using hmap

lemma dropLoop_ok (n : ℕ) (s : StripState) (h : s.sizes.length ≤ n) :
    Strip.dropLoop n s =
      .ok ⟨s.direction, [], s.calls ++ drainCalls s.direction s.sizes⟩ := by
  induction n generalizing s with
  | zero =>
    obtain ⟨dir, sizes, calls⟩ := s
    obtain rfl : sizes = [] := by
      simpa using h
    simp [Strip.dropLoop, drainCalls]
  | succ n ih =>
    obtain ⟨dir, sizes, calls⟩ := s
    rcases sizes with _ | ⟨l, rest⟩
    · simp [Strip.dropLoop, drainCalls]
    · have hstep :
          Strip.empty ⟨dir, l :: rest, calls⟩ =
            .ok ⟨dir, rest, calls ++ [LayoutCall.empty (cellSizes dir l).1 (cellSizes dir l).2]⟩ := by
        cases dir <;> rfl
      have hrest : (⟨dir, rest, calls ++
          [LayoutCall.empty (cellSizes dir l).1 (cellSizes dir l).2]⟩ : StripState).sizes.length ≤ n := by
        simpa using Nat.le_of_succ_le_succ h
      rw [Strip.dropLoop]
      simp only [List.isEmpty_cons, hstep]
      rw [ih _ hrest]
      simp [drainCalls, List.append_assoc]

lemma dropStrip_ok (s : StripState) :
    Strip.dropStrip s =
      .ok ⟨s.direction, [], s.calls ++ drainCalls s.direction s.sizes⟩ :=
  dropLoop_ok s.sizes.length s le_rfl

/-- Claim C1: for a `Strip` built over `K` resolved lengths, if the caller
successfully performs exactly `j` cell-emitting operations and stops, then
`j ≤ K`, the layout has received `j` placement calls so far, and the
teardown drain succeeds and brings the total to exactly `K` placement
calls, the `K - j` additional ones all being empty-cell placements. -/
theorem strip_drain_invariant (dir : CellDirection) (lengths : List ℚ)
    (ops : List StripOp) (s : StripState)
    (h : runOps ops ⟨dir, lengths, []⟩ = .ok s) :
    ops.length ≤ lengths.length ∧
    s.calls.length = ops.length ∧
    ∃ s', Strip.dropStrip s = .ok s' ∧
      s'.calls.length = lengths.length ∧
      (s'.calls.drop ops.length).length = lengths.length - ops.length ∧
      ∀ c ∈ s'.calls.drop ops.length, c.isEmptyCell = true := by
  obtain ⟨hle, hdir, hsz, new, hc, hlen, hmap⟩ := runOps_ok ops _ s h
  have hle' : ops.length ≤ lengths.length := by simpa using hle
  have hcalls : s.calls.length = ops.length := by simp [hc, hlen]
  have hdl : (drainCalls s.direction s.sizes).length = lengths.length - ops.length := by
    simp [drainCalls, hsz]
  refine ⟨hle', hcalls, _, dropStrip_ok s, ?_, ?_, ?_⟩
  · simp only [List.length_append, hcalls, hdl]
    omega
  · rw [← hcalls, List.drop_left, hdl, hcalls]
  · rw [← hcalls, List.drop_left]
    intro c hcmem
    simp only [drainCalls, List.mem_map] at hcmem
    obtain ⟨l, -, rfl⟩ := hcmem
    rfl

/-- Witness for claim C1 at a strip of three lengths with one consumed cell. -/
theorem strip_drain_invariant_witness :
    [StripOp.cell].length ≤ ([1, 2, 3] : List ℚ).length ∧
    (⟨CellDirection.Horizontal, [2, 3],
        [LayoutCall.add (CellSize.Absolute 1) CellSize.Remainder false]⟩ :
        StripState).calls.length = [StripOp.cell].length ∧
    ∃ s', Strip.dropStrip ⟨CellDirection.Horizontal, [2, 3],
        [LayoutCall.add (CellSize.Absolute 1) CellSize.Remainder false]⟩ = .ok s' ∧
      s'.calls.length = ([1, 2, 3] : List ℚ).length ∧
      (s'.calls.drop [StripOp.cell].length).length =
        ([1, 2, 3] : List ℚ).length - [StripOp.cell].length ∧
      ∀ c ∈ s'.calls.drop [StripOp.cell].length, c.isEmptyCell = true :=
  strip_drain_invariant CellDirection.Horizontal [1, 2, 3] [StripOp.cell]
    ⟨CellDirection.Horizontal, [2, 3],
      [LayoutCall.add (CellSize.Absolute 1) CellSize.Remainder false]⟩ rfl

/-- Claim C2: any cell-emitting operation on a dispenser whose resolved
length queue is already empty hits the fatal assertion: the program
terminates with the placement trace unchanged, so no placement call is
made. -/
theorem strip_out_of_cells_aborts (op : StripOp) (s : StripState)
    (h : s.sizes = []) : op.apply s = .error s :=
  stepErr op s h

/-- Witness for claim C2 at an exhausted horizontal dispenser. -/
theorem strip_out_of_cells_aborts_witness :
    StripOp.apply StripOp.cell ⟨CellDirection.Horizontal, [], []⟩ =
      .error ⟨CellDirection.Horizontal, [], []⟩ :=
  strip_out_of_cells_aborts StripOp.cell ⟨CellDirection.Horizontal, [], []⟩ rfl

/-- Claim C3: the resolved lengths are consumed strictly front-to-back, one
per operation — every cell-emitting operation removes exactly the head of
the queue and emits exactly one placement call carrying it, and after any
successful operation sequence the i-th emitted call's main-axis extent is
the i-th resolved length. -/
theorem strip_queue_fifo :
    (∀ (op : StripOp) (s : StripState) (l : ℚ) (rest : List ℚ),
        s.sizes = l :: rest →
        ∃ c, op.apply s = .ok ⟨s.direction, rest, s.calls ++ [c]⟩ ∧
          c.mainExtent s.direction = CellSize.Absolute l) ∧
    (∀ (dir : CellDirection) (lengths : List ℚ) (ops : List StripOp)
        (s : StripState),
        runOps ops ⟨dir, lengths, []⟩ = .ok s →
        s.sizes = lengths.drop ops.length ∧
        s.calls.map (LayoutCall.mainExtent dir) =
          (lengths.take ops.length).map CellSize.Absolute) := by
  constructor
  · intro op s l rest h
    exact ⟨opCall op s.direction l, stepOk op s l rest h,
      opCall_mainExtent op s.direction l⟩
  · intro dir lengths ops s h
    obtain ⟨hle, hdir, hsz, new, hc, hlen, hmap⟩ := runOps_ok ops _ s h
    refine ⟨by simpa using hsz, ?_⟩
    rw [hc]
    simpa using hmap

/-- Witness for claim C3 at a one-length dispenser and the empty operation. -/
theorem strip_queue_fifo_witness :
    ∃ c, StripOp.apply StripOp.empty ⟨CellDirection.Horizontal, [5], []⟩ =
        .ok ⟨CellDirection.Horizontal, [], [] ++ [c]⟩ ∧
      c.mainExtent CellDirection.Horizontal = CellSize.Absolute 5 :=
  strip_queue_fifo.1 StripOp.empty ⟨CellDirection.Horizontal, [5], []⟩ 5 [] rfl

/-- Claim C5: every emitted cell couples the consumed resolved length with
fill-remaining on the cross axis — horizontal strips place width
`Absolute l` and height `Remainder`, vertical strips place width
`Remainder` and height `Absolute l`. -/
theorem cell_axis_mapping (op : StripOp) (s : StripState) (l : ℚ)
    (rest : List ℚ) (h : s.sizes = l :: rest) :
    ∃ c, op.apply s = .ok ⟨s.direction, rest, s.calls ++ [c]⟩ ∧
      (s.direction = CellDirection.Horizontal →
        c.width = CellSize.Absolute l ∧ c.height = CellSize.Remainder) ∧
      (s.direction = CellDirection.Vertical →
        c.width = CellSize.Remainder ∧ c.height = CellSize.Absolute l) := by
  refine ⟨opCall op s.direction l, stepOk op s l rest h, ?_, ?_⟩
  · intro hd
    rw [hd]
    cases op <;> exact ⟨rfl, rfl⟩
  · intro hd
    rw [hd]
    cases op <;> exact ⟨rfl, rfl⟩

/-- Witness for claim C5 at a vertical dispenser. -/
theorem cell_axis_mapping_witness :
    ∃ c, StripOp.apply StripOp.cell ⟨CellDirection.Vertical, [7], []⟩ =
        .ok ⟨CellDirection.Vertical, [], [] ++ [c]⟩ ∧
      (CellDirection.Vertical = CellDirection.Horizontal →
        c.width = CellSize.Absolute 7 ∧ c.height = CellSize.Remainder) ∧
      (CellDirection.Vertical = CellDirection.Vertical →
        c.width = CellSize.Remainder ∧ c.height = CellSize.Absolute 7) :=
  cell_axis_mapping StripOp.cell ⟨CellDirection.Vertical, [7], []⟩ 7 [] rfl

/-- Claim C9: both nested-strip operations consume exactly one resolved
length and hand their callback the fresh builder `StripBuilder.new`, whose
accumulator is empty; `cell` and `strip` place with `clip = false`, while
`cell_clip` and `strip_noclip` place with `clip = true`. -/
theorem nested_strip_fresh_builder_clip (s : StripState) (l : ℚ)
    (rest : List ℚ) (h : s.sizes = l :: rest) :
    StripBuilder.new.sizing.sizes = [] ∧
    ∃ w hgt,
      Strip.strip s =
        .ok (⟨s.direction, rest, s.calls ++ [LayoutCall.add w hgt false]⟩,
          StripBuilder.new) ∧
      Strip.strip_noclip s =
        .ok (⟨s.direction, rest, s.calls ++ [LayoutCall.add w hgt true]⟩,
          StripBuilder.new) ∧
      Strip.cell s =
        .ok ⟨s.direction, rest, s.calls ++ [LayoutCall.add w hgt false]⟩ ∧
      Strip.cell_clip s =
        .ok ⟨s.direction, rest, s.calls ++ [LayoutCall.add w hgt true]⟩ := by
  obtain ⟨dir, sizes, calls⟩ := s
  dsimp only at h
  subst h
  refine ⟨rfl, (cellSizes dir l).1, (cellSizes dir l).2, ?_, ?_, ?_, ?_⟩ <;>
    cases dir <;> rfl

/-- Witness for claim C9 at a one-length horizontal dispenser. -/
theorem nested_strip_fresh_builder_clip_witness :
    StripBuilder.new.sizing.sizes = [] ∧
    ∃ w hgt,
      Strip.strip ⟨CellDirection.Horizontal, [4], []⟩ =
        .ok (⟨CellDirection.Horizontal, [], [] ++ [LayoutCall.add w hgt false]⟩,
          StripBuilder.new) ∧
      Strip.strip_noclip ⟨CellDirection.Horizontal, [4], []⟩ =
        .ok (⟨CellDirection.Horizontal, [], [] ++ [LayoutCall.add w hgt true]⟩,
          StripBuilder.new) ∧
      Strip.cell ⟨CellDirection.Horizontal, [4], []⟩ =
        .ok ⟨CellDirection.Horizontal, [], [] ++ [LayoutCall.add w hgt false]⟩ ∧
      Strip.cell_clip ⟨CellDirection.Horizontal, [4], []⟩ =
        .ok ⟨CellDirection.Horizontal, [], [] ++ [LayoutCall.add w hgt true]⟩ :=
  nested_strip_fresh_builder_clip ⟨CellDirection.Horizontal, [4], []⟩ 4 [] rfl

/-- Claim C10: the teardown drain can never hit the out-of-cells assertion:
for every dispenser state, the drop loop succeeds and leaves an empty
queue. -/
theorem drop_never_aborts (s : StripState) :
    ∃ s', Strip.dropStrip s = .ok s' ∧ s'.sizes = [] :=
  ⟨_, dropStrip_ok s, rfl⟩

/-- Claim C4: both entry points hand the resolver the available extent on
the primary axis reduced by exactly one item spacing, and that same spacing
as the per-gap value. -/
theorem builder_entry_spacing (b : StripBuilder) (ui : Ui) :
    (b.horizontal ui).sizes =
      b.sizing.into_lengths (ui.availableWidth - ui.itemSpacingX)
        ui.itemSpacingX ∧
    (b.vertical ui).sizes =
      b.sizing.into_lengths (ui.availableHeight - ui.itemSpacingY)
        ui.itemSpacingY :=
  ⟨rfl, rfl⟩

/-- Claim C7: the resolver returns exactly one length per specification, in
input order (the output is a map over the input list), and zero
specifications yield the empty result. -/
theorem resolver_length_order (sz : Sizing) (T s : ℚ) :
    (sz.into_lengths T s).length = sz.sizes.length ∧
    (∃ f : Size → ℚ, sz.into_lengths T s = sz.sizes.map f) ∧
    Sizing.into_lengths ⟨[]⟩ T s = [] := by
  refine ⟨?_, ⟨_, rfl⟩, rfl⟩
  simp [Sizing.into_lengths]

/-- Claim C8: a horizontal strip over sizes `[Absolute 40, Remainder,
Absolute 40]` with available width 200 and item spacing 0 resolves to
`[40, 120, 40]`, for any available height and vertical spacing. -/
theorem end_to_end_horizontal (availableHeight itemSpacingY : ℚ) :
    ((StripBuilder.new.size (Size.Absolute 40) |>.size Size.Remainder
        |>.size (Size.Absolute 40)).horizontal
      ⟨200, availableHeight, 0, itemSpacingY⟩).sizes = [40, 120, 40] := by
  norm_num [StripBuilder.horizontal, StripBuilder.new, StripBuilder.size,
    Sizing.new, Sizing.add, Sizing.into_lengths, Sizing.leftover,
    Sizing.fixedSum, Sizing.gapAllowance, Sizing.totalWeight, Size.resolve,
    Size.fixedContribution, Size.weight, Size.isFlexible]

/-- Counterexample to claim C6: over the specifications
`[RemainderMinimum 100, Absolute 40]` with total 30 and spacing 0, the total
is below the fixed contributions plus gaps, the first specification is
flexible, yet it resolves to 100, not 0 (its minimum clamp applies after
distribution). -/
theorem flexible_zero_counterexample :
    (30 : ℚ) <
      (Sizing.mk [Size.RemainderMinimum 100, Size.Absolute 40]).fixedSum +
        (Sizing.mk [Size.RemainderMinimum 100, Size.Absolute 40]).gapAllowance 0 ∧
    Size.isFlexible (Size.RemainderMinimum 100) = true ∧
    (Sizing.mk [Size.RemainderMinimum 100, Size.Absolute 40]).into_lengths 30 0 =
      [100, 40] ∧
    ((100 : ℚ) = 0 → False) := by
  refine ⟨?_, rfl, ?_, by norm_num⟩
  · norm_num [Sizing.fixedSum, Sizing.gapAllowance, Size.fixedContribution]
  · norm_num [Sizing.into_lengths, Sizing.leftover, Sizing.fixedSum,
      Sizing.gapAllowance, Sizing.totalWeight, Size.resolve,
      Size.fixedContribution, Size.weight, Size.isFlexible]

lemma zip_map_pair {α β : Type*} (f : α → β) :
    ∀ (l : List α) (p : α × β), p ∈ l.zip (l.map f) → p.2 = f p.1 := by
  intro l
  induction l with
  | nil =>
    intro p hp
    simp at hp
  | cons a l ih =>
    intro p hp
    simp only [List.map_cons, List.zip_cons_cons, List.mem_cons] at hp
    rcases hp with rfl | hp
    · rfl
    · exact ih p hp

/-- Claim C6 as amended: if the total is below the fixed contributions plus
the gap allowance, every flexible specification's distributed share is 0, so
flexible specifications without a minimum resolve to exactly 0 while a
declared minimum `m` still clamps its entry to `max m 0`; no flexible
entry ever resolves negative. -/
theorem flexible_zero_amended (sz : Sizing) (T s : ℚ)
    (h : T < sz.fixedSum + sz.gapAllowance s) :
    sz.into_lengths T s = sz.sizes.map (fun x =>
      match x with
      | Size.Absolute v => v
      | Size.Remainder => 0
      | Size.RemainderMinimum m => max m 0
      | Size.Weighted _ => 0) ∧
    ∀ p ∈ sz.sizes.zip (sz.into_lengths T s),
      (p.1.isFlexible = true → 0 ≤ p.2) ∧
      ((p.1 = Size.Remainder ∨ ∃ w, p.1 = Size.Weighted w) → p.2 = 0) := by
  have h0 : sz.leftover T s = 0 := by
    have hle : T - sz.fixedSum - sz.gapAllowance s ≤ 0 := by linarith
    simpa [Sizing.leftover] using max_eq_left hle
  have hfun : (fun x => Size.resolve x fun w =>
      max 0 (sz.leftover T s * w / sz.totalWeight)) = fun x =>
      match x with
      | Size.Absolute v => v
      | Size.Remainder => 0
      | Size.RemainderMinimum m => max m 0
      | Size.Weighted _ => 0 := by
    funext x
    cases x <;> simp [Size.resolve, h0]
  have hmap : sz.into_lengths T s = sz.sizes.map (fun x =>
      match x with
      | Size.Absolute v => v
      | Size.Remainder => 0
      | Size.RemainderMinimum m => max m 0
      | Size.Weighted _ => 0) := by
    rw [Sizing.into_lengths, hfun]
  refine ⟨hmap, ?_⟩
  intro p hp
  rw [hmap] at hp
  have hval := zip_map_pair _ sz.sizes p hp
  obtain ⟨x, q⟩ := p
  dsimp only at hval
  subst hval
  constructor
  · intro hflex
    cases x <;> simp_all [Size.isFlexible]
  · rintro (rfl | ⟨w, rfl⟩) <;> rfl

/-- Witness for the amended claim C6 at a single unweighted flexible
specification with negative leftover. -/
theorem flexible_zero_amended_witness :
    (Sizing.mk [Size.Remainder]).into_lengths (-1) 0 =
      (Sizing.mk [Size.Remainder]).sizes.map (fun x =>
        match x with
        | Size.Absolute v => v
        | Size.Remainder => 0
        | Size.RemainderMinimum m => max m 0
        | Size.Weighted _ => 0) ∧
    ∀ p ∈ (Sizing.mk [Size.Remainder]).sizes.zip
        ((Sizing.mk [Size.Remainder]).into_lengths (-1) 0),
      (p.1.isFlexible = true → 0 ≤ p.2) ∧
      ((p.1 = Size.Remainder ∨ ∃ w, p.1 = Size.Weighted w) → p.2 = 0) :=
  flexible_zero_amended ⟨[Size.Remainder]⟩ (-1) 0
    (by norm_num [Sizing.fixedSum, Sizing.gapAllowance, Size.fixedContribution])

end EguiStrip
